import Mathlib

/-!
Verification of the git-mcp tool-capability registry and dispatch layer.

The development shallowly embeds the TypeScript sources:
* the tool definitions, handlers and `GitToolsMcpServer` construction
  (`src/index.ts`, the configurable variant);
* the SSE entry point with its module-level transport slot (`src/bin/sse.ts`);
* the `McpServer` base class (toolset policy, registry list/resolve,
  invoke dispatch) is not part of the provided sources; it is modelled
  from the specification, with each such definition marked.

External collaborators (the `git` binary, the shell used for directory
probes, Node's `path` module) are modelled at their interface boundary:
an `ExecEnv` supplies the result of each shell command and the resolution
of a path string into absolute-path components.
-/

namespace GitMcp

/-- A JSON-ish argument value: the tool schemas here only use strings and
numbers. Numbers are modelled as integers. -/
inductive JsonVal
  | str (s : String)
  | num (n : Int)
deriving DecidableEq, Repr

/-- The argument record passed to `InvokeCapability`: named fields. -/
abbrev Args := List (String × JsonVal)

/-- Field type in a tool input schema (`z.string()` / `z.number()`). -/
inductive FieldType
  | string
  | number
deriving DecidableEq, Repr

/-- One named field of a tool's `inputSchema`: its type and whether it is
required (`z.number().optional()` gives `required = false`). -/
structure FieldSpec where
  name : String
  fieldType : FieldType
  required : Bool
deriving DecidableEq, Repr

/-- Behavioral annotations of a tool definition (`annotations` in the
source): the fixed boolean hints plus a display title. -/
structure ToolAnnotations where
  title : String
  readOnlyHint : Bool
  destructiveHint : Bool
  idempotentHint : Bool
  openWorldHint : Bool
deriving DecidableEq, Repr

/-- A Tool Definition: `createToolDefinition` in `utils/tools` packages
name, description, input schema and annotations. -/
structure ToolDefinition where
  name : String
  description : String
  inputSchema : List FieldSpec
  annotations : ToolAnnotations
deriving DecidableEq, Repr

/-- A content block of a success payload; the git tools only produce
`type: "text"` blocks. -/
inductive ContentBlock
  | text (t : String)
deriving DecidableEq, Repr

/-- A handler's success payload: an ordered sequence of content blocks. -/
structure ToolResult where
  content : List ContentBlock
deriving DecidableEq, Repr

/-- The external environment a handler runs against:
`run` is `execAsync`, mapping a shell command string to its stdout or to a
thrown error (`Except.error`); `resolve` is Node's `path.resolve`, mapping
a path string to the components of the corresponding absolute path,
stored deepest-first (so the filesystem root is `[]` and `path.dirname`
is `List.tail`). -/
structure ExecEnv where
  run : String → Except String String
  resolve : String → List String

/-- A Tool Capability: a definition bound to an invocation handler
(`createTool`). The handler takes the execution environment and the
validated argument record. -/
structure ToolCapability where
  definition : ToolDefinition
  handler : ExecEnv → Args → Except String ToolResult

/-- `createTool` from `utils/tools`: binds a handler to a definition. -/
def createTool (d : ToolDefinition)
    (h : ExecEnv → Args → Except String ToolResult) : ToolCapability :=
  ⟨d, h⟩

/-! ## Paths and shell commands built by the handlers

Absolute paths are component lists stored deepest-first: the root `/` is
`[]`, `/a/b` is `["b", "a"]`. `path.dirname` on such a path is `List.tail`
(and the root is its own parent, matching `dirname("/") = "/"`). -/

/-- Render an absolute path (deepest-first component list) back to its
string form, as Node's `path` module produces it. -/
def renderPath (p : List String) : String :=
  "/" ++ String.intercalate "/" p.reverse

/-- `path.join(current, ".git")` on the rendered current directory. -/
def joinGit (dir : List String) : String :=
  if dir = [] then "/.git" else renderPath dir ++ "/.git"

/-- The shell probe the repos handler issues for one directory:
`[ -d "<gitDir>" ] && echo found || echo notfound`. -/
def probeCmd (gitDir : String) : String :=
  "[ -d \"" ++ gitDir ++ "\" ] && echo found || echo notfound"

/-- `git -C "<path>" rev-parse --abbrev-ref HEAD` -/
def gitCurrentBranchCmd (path : String) : String :=
  "git -C \"" ++ path ++ "\" rev-parse --abbrev-ref HEAD"

/-- `git -C "<path>" status --porcelain=v1 --branch` -/
def gitStatusCmd (path : String) : String :=
  "git -C \"" ++ path ++ "\" status --porcelain=v1 --branch"

/-- `git -C "<path>" log ${countArg} --pretty=oneline`, where `countArg`
is `-n ${maxCount}` when `maxCount` is truthy as a JavaScript number
(present and nonzero) and the empty string otherwise. -/
def gitLogCmd (path : String) (maxCount : Option Int) : String :=
  let countArg := match maxCount with
    | some n => if n != 0 then "-n " ++ toString n else ""
    | none => ""
  "git -C \"" ++ path ++ "\" log " ++ countArg ++ " --pretty=oneline"

/-- `git -C "<path>" remote -v` -/
def gitRemotesCmd (path : String) : String :=
  "git -C \"" ++ path ++ "\" remote -v"

/-- `git -C "<path>" config --list` -/
def gitConfigCmd (path : String) : String :=
  "git -C \"" ++ path ++ "\" config --list"

/-- Leading and trailing whitespace removed from a character list. -/
def trimChars (s : List Char) : List Char :=
  ((s.dropWhile Char.isWhitespace).reverse.dropWhile Char.isWhitespace).reverse

/-- JavaScript's `String.prototype.trim` (also the behavior of Lean's
`String.trim`): strip leading and trailing whitespace. Defined by
structural recursion on the character list so it evaluates by `decide`. -/
def jsTrim (s : String) : String := ⟨trimChars s.data⟩

/-! ## The git tool handlers (`src/index.ts`) -/

/-- One iteration body of the repos handler's probe: run the directory
probe and report whether it succeeded with output `found`. A thrown probe
(`Except.error`) is swallowed by the handler's `catch {}` and counts as
not-a-repository. The source issues the identical probe command twice per
directory and discards the first result; against a deterministic
environment the two calls agree, so one probe captures both. -/
def probeFound (env : ExecEnv) (dir : List String) : Bool :=
  match env.run (probeCmd (joinGit dir)) with
  | .ok stdout => jsTrim stdout == "found"
  | .error _ => false

/-- The ancestor walk of `get_git_repos_from_path`: starting from the
resolved path, push every directory whose probe succeeds with `found`,
step to the parent (`List.tail`), and stop when the parent equals the
current directory (at the root `[]`). -/
def gitRepoWalk (env : ExecEnv) : List String → List (List String)
  | [] => if probeFound env [] then [[]] else []
  | d :: rest =>
      (if probeFound env (d :: rest) then [d :: rest] else []) ++
        gitRepoWalk env rest

/-- The directories the walk visits, in visit order: the current
directory, then each ancestor up to and including the root. -/
def gitRepoWalkVisited : List String → List (List String)
  | [] => [[]]
  | d :: rest => (d :: rest) :: gitRepoWalkVisited rest

/-- `JSON.stringify` on an array of path strings (which contain no
characters needing JSON escaping). -/
def jsonStringify (xs : List String) : String :=
  "[" ++ String.intercalate "," (xs.map (fun s => "\"" ++ s ++ "\"")) ++ "]"

/-- Handler of `get_git_repos_from_path`: resolve the input path, walk the
ancestors collecting git repositories, and return the found paths
JSON-encoded in a single text block. Probe failures are caught inside the
loop, so the handler itself never throws. -/
def getGitReposHandler (env : ExecEnv) (path : String) :
    Except String ToolResult :=
  let current := env.resolve path
  let found := gitRepoWalk env current
  .ok { content := [ContentBlock.text (jsonStringify (found.map renderPath))] }

/-- Handler of `get_current_branch`: the subprocess stdout, trimmed. -/
def getCurrentBranchHandler (env : ExecEnv) (path : String) :
    Except String ToolResult :=
  match env.run (gitCurrentBranchCmd path) with
  | .ok stdout => .ok { content := [ContentBlock.text (jsTrim stdout)] }
  | .error e => .error e

/-- Handler of `get_git_status`: the subprocess stdout, unmodified. -/
def getStatusHandler (env : ExecEnv) (path : String) :
    Except String ToolResult :=
  match env.run (gitStatusCmd path) with
  | .ok stdout => .ok { content := [ContentBlock.text stdout] }
  | .error e => .error e

/-- Handler of `get_git_log`: the subprocess stdout, unmodified; the
`maxCount` argument reaches the command line only when truthy. -/
def getLogHandler (env : ExecEnv) (path : String) (maxCount : Option Int) :
    Except String ToolResult :=
  match env.run (gitLogCmd path maxCount) with
  | .ok stdout => .ok { content := [ContentBlock.text stdout] }
  | .error e => .error e

/-- Handler of `get_git_remotes`: the subprocess stdout, unmodified. -/
def getRemotesHandler (env : ExecEnv) (path : String) :
    Except String ToolResult :=
  match env.run (gitRemotesCmd path) with
  | .ok stdout => .ok { content := [ContentBlock.text stdout] }
  | .error e => .error e

/-- Handler of `get_git_config`: the subprocess stdout, unmodified. -/
def getConfigHandler (env : ExecEnv) (path : String) :
    Except String ToolResult :=
  match env.run (gitConfigCmd path) with
  | .ok stdout => .ok { content := [ContentBlock.text stdout] }
  | .error e => .error e

/-- Extract the validated `path` argument (a string field the schemas mark
required; validation guarantees presence, so the default is never
reached after a successful validation). -/
def argsPath (args : Args) : String :=
  match args.lookup "path" with
  | some (JsonVal.str s) => s
  | _ => ""

/-- Extract the optional numeric `maxCount` argument. -/
def argsMaxCount (args : Args) : Option Int :=
  match args.lookup "maxCount" with
  | some (JsonVal.num n) => some n
  | _ => none

/-! ## The tool definitions (`src/index.ts`) -/

def getGitReposTool : ToolDefinition :=
  { name := "get_git_repos_from_path"
    description := "Get all parent git repositories from a given path (searches up the directory tree)"
    inputSchema := [⟨"path", FieldType.string, true⟩]
    annotations :=
      { title := "Get Git Repos From Path"
        readOnlyHint := true
        destructiveHint := false
        idempotentHint := true
        openWorldHint := false } }

def getCurrentBranchTool : ToolDefinition :=
  { name := "get_current_branch"
    description := "Get the current git branch for a given repository path"
    inputSchema := [⟨"path", FieldType.string, true⟩]
    annotations :=
      { title := "Get Current Branch"
        readOnlyHint := true
        destructiveHint := false
        idempotentHint := true
        openWorldHint := false } }

def getStatusTool : ToolDefinition :=
  { name := "get_git_status"
    description := "Get the git status for a given repository path"
    inputSchema := [⟨"path", FieldType.string, true⟩]
    annotations :=
      { title := "Get Git Status"
        readOnlyHint := true
        destructiveHint := false
        idempotentHint := true
        openWorldHint := false } }

def getLogTool : ToolDefinition :=
  { name := "get_git_log"
    description := "Get the git log for a given repository path"
    inputSchema := [⟨"path", FieldType.string, true⟩, ⟨"maxCount", FieldType.number, false⟩]
    annotations :=
      { title := "Get Git Log"
        readOnlyHint := true
        destructiveHint := false
        idempotentHint := true
        openWorldHint := false } }

def getRemotesTool : ToolDefinition :=
  { name := "get_git_remotes"
    description := "Get the git remotes for a given repository path"
    inputSchema := [⟨"path", FieldType.string, true⟩]
    annotations :=
      { title := "Get Git Remotes"
        readOnlyHint := true
        destructiveHint := false
        idempotentHint := true
        openWorldHint := false } }

def getConfigTool : ToolDefinition :=
  { name := "get_git_config"
    description := "Get the git config for a given repository path"
    inputSchema := [⟨"path", FieldType.string, true⟩]
    annotations :=
      { title := "Get Git Config"
        readOnlyHint := true
        destructiveHint := false
        idempotentHint := true
        openWorldHint := false } }

def getGitReposCapability : ToolCapability :=
  createTool getGitReposTool
    (fun env args => getGitReposHandler env (argsPath args))

def getCurrentBranchCapability : ToolCapability :=
  createTool getCurrentBranchTool
    (fun env args => getCurrentBranchHandler env (argsPath args))

def getStatusCapability : ToolCapability :=
  createTool getStatusTool
    (fun env args => getStatusHandler env (argsPath args))

def getLogCapability : ToolCapability :=
  createTool getLogTool
    (fun env args => getLogHandler env (argsPath args) (argsMaxCount args))

def getRemotesCapability : ToolCapability :=
  createTool getRemotesTool
    (fun env args => getRemotesHandler env (argsPath args))

def getConfigCapability : ToolCapability :=
  createTool getConfigTool
    (fun env args => getConfigHandler env (argsPath args))

/-- The static base capability list, in declaration order. -/
def gitTools : List ToolCapability :=
  [ getGitReposCapability,
    getCurrentBranchCapability,
    getStatusCapability,
    getLogCapability,
    getRemotesCapability,
    getConfigCapability ]

/-! ## Server construction (`GitToolsMcpServer`) -/

/-- The operating mode of the toolset policy. -/
inductive ToolsetMode
  | readOnly
  | all
deriving DecidableEq, Repr

/-- `ToolsetConfig` from `types`: the configured mode. -/
structure ToolsetConfig where
  mode : ToolsetMode
deriving DecidableEq, Repr

/-- `DynamicToolDiscoveryOptions` from `types`. -/
structure DynamicToolDiscoveryOptions where
  enabled : Bool
deriving DecidableEq, Repr

/-- `GitToolsMcpServerConfig`: every field optional (`none` is the absent
JavaScript property). -/
structure GitToolsMcpServerConfig where
  toolsetConfig : Option ToolsetConfig := none
  dynamicToolDiscovery : Option DynamicToolDiscoveryOptions := none
  availableTools : Option (List String) := none

/-- The capability list the `GitToolsMcpServer` constructor hands to its
base class: `config.availableTools?.length` is falsy when the property is
absent or the list is empty (JavaScript number truthiness), in which case
the full base list is used; otherwise the base list is filtered to the
names the allow-list contains. -/
def serverCapabilityTools (cfg : GitToolsMcpServerConfig) : List ToolCapability :=
  match cfg.availableTools with
  | some ts =>
      if ts.length != 0 then
        if ts.length > 0 then
          gitTools.filter (fun tool => ts.contains tool.definition.name)
        else gitTools
      else gitTools
  | none => gitTools

/-- The toolset configuration handed to the base class:
`config.toolsetConfig || { mode: "readOnly" }`. -/
def serverToolsetConfig (cfg : GitToolsMcpServerConfig) : ToolsetConfig :=
  cfg.toolsetConfig.getD ⟨ToolsetMode.readOnly⟩

/-! ## The SSE entry point (`src/bin/sse.ts`)

The entry point keeps one module-level variable
`let transport: SSEServerTransport | null = null`. Each `GET /sse`
constructs a fresh transport for the new connection and assigns it to that
single slot; `POST /messages` forwards the posted message to whatever
transport the slot currently holds. Transports are identified here by the
session they were created for. -/

/-- The module state of the SSE entry point: the single transport slot. -/
structure SseAppState where
  transport : Option Nat
deriving DecidableEq, Repr

/-- The state at module load: `transport = null`. -/
def initialSseState : SseAppState := { transport := none }

/-- `GET /sse`: a new transport for session `sid` overwrites the slot. -/
def handleSseConnect (_st : SseAppState) (sid : Nat) : SseAppState :=
  { transport := some sid }

/-- `POST /messages`: the session whose transport receives the posted
message — always the one in the slot, regardless of which session the
message belongs to; `none` when no connection was ever made. -/
def handlePostMessage (st : SseAppState) : Option Nat :=
  st.transport

/-- The set of sessions that receive a server-initiated signal (such as a
discovery-changed notification) fanned out through the entry point's
transport state: only the occupant of the single slot. -/
def signalRecipients (st : SseAppState) : List Nat :=
  match st.transport with
  | some sid => [sid]
  | none => []

/-! ## The McpServer base class, modelled from the spec

The file `src/mcp-server.ts` is imported by the sources but is not among
the provided files; the toolset policy, registry and dispatch it
implements are modelled from the specification (sections 4.2 to 4.4). -/

/-- Modelled from the spec: the toolset policy `isVisible(capability,
config)` of the missing `McpServer` base class. Mode `readOnly`: visible
iff `annotations.destructiveHint === false`; mode `all`: visible
unconditionally. -/
def isVisible (mode : ToolsetMode) (cap : ToolCapability) : Bool :=
  match mode with
  | ToolsetMode.readOnly => cap.definition.annotations.destructiveHint == false
  | ToolsetMode.all => true

/-- Modelled from the spec: the registry `list()` of the missing
`McpServer` base class — the base list filtered in place by the
visibility predicate, preserving declaration order. -/
def listTools (mode : ToolsetMode) (tools : List ToolCapability) :
    List ToolCapability :=
  tools.filter (isVisible mode)

/-- Modelled from the spec: the registry `resolve(name)` of the missing
`McpServer` base class — it consults the same visibility predicate as
`list`, so a policy-hidden capability is unreachable by name. -/
def resolveTool (mode : ToolsetMode) (tools : List ToolCapability)
    (name : String) : Option ToolCapability :=
  (tools.filter (isVisible mode)).find? (fun c => c.definition.name == name)

/-- Modelled from the spec: argument validation of the missing `McpServer`
dispatch engine against the resolved definition's `inputSchema`. The
model covers the missing-required-field class of mismatch: it reports the
name of the first schema field that is required but absent from the
argument record, and `none` when every required field is present. -/
def validateArgs (schema : List FieldSpec) (args : Args) : Option String :=
  (schema.find? (fun fs => fs.required && !(args.lookup fs.name).isSome)).map
    (fun fs => fs.name)

/-- The outcome of one `InvokeCapability` dispatch, in the error taxonomy
of the spec. -/
inductive InvokeOutcome
  | success (content : List ContentBlock)
  | notFound
  | validationError (field : String)
  | toolExecutionError (msg : String)
deriving DecidableEq, Repr

/-- Modelled from the spec: the dispatch engine's `Invoke(name, args)` of
the missing `McpServer` base class — resolve (miss gives `NotFound`),
validate (mismatch gives `ValidationError` carrying the offending field,
without calling the handler), then invoke the handler, wrapping success
unchanged and classifying a thrown failure as `ToolExecutionError`. The
second component records whether the handler was called. -/
def invokeTool (env : ExecEnv) (mode : ToolsetMode)
    (tools : List ToolCapability) (name : String) (args : Args) :
    InvokeOutcome × Bool :=
  match resolveTool mode tools name with
  | none => (InvokeOutcome.notFound, false)
  | some cap =>
      match validateArgs cap.definition.inputSchema args with
      | some f => (InvokeOutcome.validationError f, false)
      | none =>
          match cap.handler env args with
          | .ok res => (InvokeOutcome.success res.content, true)
          | .error e => (InvokeOutcome.toolExecutionError e, true)

/-- The allow-list predicate the `GitToolsMcpServer` constructor applies
before handing the tools to the base class: with a non-empty
`availableTools` list, keep exactly the capabilities whose name the list
contains; otherwise keep everything. -/
def allowPred (cfg : GitToolsMcpServerConfig) (cap : ToolCapability) : Bool :=
  match cfg.availableTools with
  | some ts => if ts.length > 0 then ts.contains cap.definition.name else true
  | none => true

/-! ## Interface model of the external git collaborator and concrete
environments used to instantiate the theorems -/

/-- The stdout of `git log --pretty=oneline` over the given commit
summaries (most recent first): each summary on its own line, each line
terminated by a newline. -/
def gitLogStdout (commits : List String) : String :=
  String.join (commits.map (fun c => c ++ "\n"))

/-- An environment in which every command fails and every path resolves
to the root. -/
def stubEnv : ExecEnv :=
  { run := fun _ => .error "stub"
    resolve := fun _ => [] }

/-- An environment for a repository at `/repo` checked out at `main`:
the branch query prints `main` followed by a newline. -/
def mainBranchEnv : ExecEnv :=
  { run := fun c =>
      if c = gitCurrentBranchCmd "/repo" then .ok "main\n" else .error "stub"
    resolve := fun _ => [] }

/-- A three-commit history, most recent first. -/
def logCommitsExample : List String :=
  ["c3 third", "c2 second", "c1 first"]

/-- An environment for a repository at `/repo` with the three-commit
history: the log query limited to two entries prints the two most recent
summaries. -/
def logEnvExample : ExecEnv :=
  { run := fun c =>
      if c = gitLogCmd "/repo" (some 2) then
        .ok (gitLogStdout (logCommitsExample.take 2))
      else .error "stub"
    resolve := fun _ => [] }

/-- An environment for the ancestor walk from `/home/proj`: the probe of
`/home/proj` finds a `.git` folder, the probe of `/home` throws, and every
other probe reports `notfound`. -/
def walkEnvExample : ExecEnv :=
  { run := fun c =>
      if c = probeCmd (joinGit ["proj", "home"]) then .ok "found\n"
      else if c = probeCmd (joinGit ["home"]) then .error "probe failed"
      else .ok "notfound\n"
    resolve := fun _ => ["proj", "home"] }

/-- A capability whose annotations carry `destructiveHint = true`, used to
instantiate the read-only policy theorem. -/
def destructiveToolExample : ToolCapability :=
  createTool
    { name := "dangerous_tool"
      description := "a destructive capability"
      inputSchema := [⟨"path", FieldType.string, true⟩]
      annotations :=
        { title := "Dangerous Tool"
          readOnlyHint := false
          destructiveHint := true
          idempotentHint := false
          openWorldHint := true } }
    (fun _ _ => .ok { content := [] })

/-! ## Shared lemmas -/

/-- The ancestor walk keeps exactly those visited directories whose probe
succeeded with output `found`: a probe that throws is swallowed by the
`catch` and the walk continues with the parent. -/
theorem gitRepoWalk_eq_filter_visited (env : ExecEnv) (p : List String) :
    gitRepoWalk env p = (gitRepoWalkVisited p).filter (probeFound env) := by
  induction p with
  | nil =>
      cases h : probeFound env [] <;>
        simp [gitRepoWalk, gitRepoWalkVisited, h]
  | cons d rest ih =>
      cases h : probeFound env (d :: rest) <;>
        simp [gitRepoWalk, gitRepoWalkVisited, h, ih]

/-- The capability list the constructor passes to the base class is the
base list filtered in place by the allow-list predicate. -/
theorem serverCapabilityTools_eq_filter (cfg : GitToolsMcpServerConfig) :
    serverCapabilityTools cfg = gitTools.filter (allowPred cfg) := by
  unfold serverCapabilityTools allowPred
  cases hav : cfg.availableTools with
  | none => simp
  | some ts =>
      by_cases hts : ts.length > 0
      · simp only [if_pos hts]
        have : (ts.length != 0) = true := by
          simp only [bne_iff_ne]
          omega
        simp [this]
      · have h0 : ts.length = 0 := by omega
        simp [h0]

/-! ## The claims -/

/-- C1: the SSE entry point keeps a single module-level transport slot,
overwritten on every new `GET /sse` connection. After sessions 1 and 2
connect in that order, a message posted to `/messages` is routed to
session 2's transport even when it belongs to session 1, and a
server-initiated signal fanned out through the entry point's transport
state reaches only session 2 — contradicting the required per-session
isolation and full fan-out. -/
theorem sse_single_transport_slot_misroutes :
    handlePostMessage (handleSseConnect (handleSseConnect initialSseState 1) 2) = some 2 ∧
    handlePostMessage (handleSseConnect (handleSseConnect initialSseState 1) 2) ≠ some 1 ∧
    signalRecipients (handleSseConnect (handleSseConnect initialSseState 1) 2) = [2] := by
  decide

/-- C9: invoking `get_git_log` with `maxCount = 0` behaves identically to
omitting `maxCount`: the handler tests `maxCount` for JavaScript
truthiness before adding the `-n` argument, so zero builds the same
command line as absence and yields the full commit log. -/
theorem getLog_maxCount_zero_same_as_omitted :
    ∀ (env : ExecEnv) (path : String),
      gitLogCmd path (some 0) = gitLogCmd path none ∧
      getLogHandler env path (some 0) = getLogHandler env path none := by
  intro env path
  exact ⟨rfl, rfl⟩

/-- C5: invoking `get_current_branch` on a repository whose checked-out
branch is `main` (so the subprocess prints `main` followed by a newline)
returns a single text block holding the literal `main`, with the trailing
newline removed by the handler's trim. -/
theorem getCurrentBranch_returns_trimmed_main (env : ExecEnv) (p : String)
    (h : env.run (gitCurrentBranchCmd p) = .ok "main\n") :
    getCurrentBranchHandler env p =
      .ok { content := [ContentBlock.text "main"] } := by
  unfold getCurrentBranchHandler
  rw [h]
  rfl

/-- Witness for C5 at the concrete environment `mainBranchEnv`. -/
theorem getCurrentBranch_returns_trimmed_main_witness :
    getCurrentBranchHandler mainBranchEnv "/repo" =
      .ok { content := [ContentBlock.text "main"] } :=
  getCurrentBranch_returns_trimmed_main mainBranchEnv "/repo" (by rfl)

/-- C4: invoking `get_git_log` with `maxCount = 2` on a repository with at
least 3 commits (so the subprocess, run with `-n 2`, prints the two most
recent summaries) returns a success payload whose single text block is
exactly the two summaries, each followed by its newline. -/
theorem getLog_maxCount_two_returns_two_summaries (env : ExecEnv)
    (p : String) (commits : List String)
    (hrun : env.run (gitLogCmd p (some 2)) = .ok (gitLogStdout (commits.take 2)))
    (hlen : 3 ≤ commits.length) :
    ∃ c1 c2, commits.take 2 = [c1, c2] ∧
      getLogHandler env p (some 2) =
        .ok { content := [ContentBlock.text (c1 ++ "\n" ++ (c2 ++ "\n"))] } := by
  match commits, hlen with
  | c1 :: c2 :: c3 :: rest, _ =>
      refine ⟨c1, c2, rfl, ?_⟩
      unfold getLogHandler
      rw [hrun]
      simp [gitLogStdout, String.join, String.append_assoc]

/-- Witness for C4 at the concrete environment `logEnvExample` over the
three-commit history `logCommitsExample`. -/
theorem getLog_maxCount_two_returns_two_summaries_witness :
    ∃ c1 c2, logCommitsExample.take 2 = [c1, c2] ∧
      getLogHandler logEnvExample "/repo" (some 2) =
        .ok { content := [ContentBlock.text (c1 ++ "\n" ++ (c2 ++ "\n"))] } :=
  getLog_maxCount_two_returns_two_summaries logEnvExample "/repo"
    logCommitsExample (by rfl) (by decide)

/-- C7: the `get_git_repos_from_path` handler never propagates a
directory-probe failure. For every environment and input path it returns
a success payload, its found list is exactly the visited ancestors whose
probe succeeded with output `found` (filtered in place, so the walk
continued past any failing directory down to the root), and a directory
whose probe failed — by throwing or by printing `notfound` — never
appears in the found list. -/
theorem getGitRepos_swallows_probe_failures (env : ExecEnv) (path : String) :
    getGitReposHandler env path =
      .ok { content := [ContentBlock.text (jsonStringify
        (((gitRepoWalkVisited (env.resolve path)).filter
          (probeFound env)).map renderPath))] } ∧
    ∀ dir, probeFound env dir = false →
      dir ∉ gitRepoWalk env (env.resolve path) := by
  constructor
  · simp only [getGitReposHandler, gitRepoWalk_eq_filter_visited]
  · intro dir h hmem
    rw [gitRepoWalk_eq_filter_visited] at hmem
    have hp := List.of_mem_filter hmem
    rw [h] at hp
    exact Bool.false_ne_true hp

/-- Witness for C7 at the concrete environment `walkEnvExample`, where the
probe of `/home/proj` finds a repository, the probe of `/home` throws and
the probe of `/` reports `notfound`: the handler still succeeds, listing
exactly `/home/proj`, and the failing directory `/home` is not listed. -/
theorem getGitRepos_swallows_probe_failures_witness :
    getGitReposHandler walkEnvExample "/home/proj" =
      .ok { content := [ContentBlock.text "[\"/home/proj\"]"] } ∧
    ["home"] ∉ gitRepoWalk walkEnvExample (walkEnvExample.resolve "/home/proj") := by
  have h := getGitRepos_swallows_probe_failures walkEnvExample "/home/proj"
  exact ⟨by rw [h.1]; rfl, h.2 ["home"] (by rfl)⟩

/-- C10: the ancestor walk of `get_git_repos_from_path` terminates for
every input path, visiting the resolved path and then each ancestor up to
the filesystem root exactly once: the visit trace is precisely the list
of suffixes of the resolved path's components, it has no duplicates, and
the found list is an in-order sublist of that trace. -/
theorem gitRepoWalk_visits_each_ancestor_once (p : List String) :
    gitRepoWalkVisited p = p.tails ∧
    (gitRepoWalkVisited p).Nodup ∧
    ∀ env : ExecEnv, (gitRepoWalk env p).Sublist (gitRepoWalkVisited p) := by
  have hv : ∀ q : List String, gitRepoWalkVisited q = q.tails := by
    intro q
    induction q with
    | nil => rfl
    | cons d rest ih => simp [gitRepoWalkVisited, List.tails_cons, ih]
  have hnd : ∀ q : List String, q.tails.Nodup := by
    intro q
    induction q with
    | nil => simp
    | cons d rest ih =>
        rw [List.tails_cons]
        refine List.nodup_cons.mpr ⟨?_, ih⟩
        intro hmem
        have hsuf := (List.mem_tails _ _).mp hmem
        have hle := hsuf.length_le
        simp at hle
  refine ⟨hv p, ?_, ?_⟩
  · rw [hv p]
    exact hnd p
  · intro env
    rw [gitRepoWalk_eq_filter_visited]
    exact List.filter_sublist _

/-- C2: under mode `readOnly`, a capability of the base list whose
annotations carry `destructiveHint = true` is absent from the advertised
list, invoking it by name yields `NotFound` (without calling any handler)
for every argument record, and — resolve consulting the same visibility
predicate as list — anything resolve does return is a listed capability. -/
theorem readOnly_hides_destructive_capabilities
    (tools : List ToolCapability) (cap : ToolCapability)
    (hnodup : (tools.map (fun c => c.definition.name)).Nodup)
    (hmem : cap ∈ tools)
    (hdest : cap.definition.annotations.destructiveHint = true) :
    cap ∉ listTools ToolsetMode.readOnly tools ∧
    (∀ env args,
      invokeTool env ToolsetMode.readOnly tools cap.definition.name args =
        (InvokeOutcome.notFound, false)) ∧
    (∀ name c, resolveTool ToolsetMode.readOnly tools name = some c →
      c ∈ listTools ToolsetMode.readOnly tools) := by
  have hinvis : ∀ c : ToolCapability, c ∈ listTools ToolsetMode.readOnly tools →
      c.definition.annotations.destructiveHint = false := by
    intro c hc
    have := List.of_mem_filter hc
    simpa [isVisible] using this
  have hnotmem : cap ∉ listTools ToolsetMode.readOnly tools := by
    intro hc
    rw [hinvis cap hc] at hdest
    exact Bool.false_ne_true hdest
  refine ⟨hnotmem, ?_, ?_⟩
  · intro env args
    have hres : resolveTool ToolsetMode.readOnly tools cap.definition.name = none := by
      cases hfind : resolveTool ToolsetMode.readOnly tools cap.definition.name with
      | none => rfl
      | some c =>
          exfalso
          unfold resolveTool at hfind
          have hcl : c ∈ listTools ToolsetMode.readOnly tools :=
            List.mem_of_find?_eq_some hfind
          have hname : c.definition.name = cap.definition.name := by
            have := List.find?_some hfind
            simpa using this
          have hct : c ∈ tools := List.Sublist.mem hcl (List.filter_sublist tools)
          have : c = cap := List.inj_on_of_nodup_map hnodup hct hmem hname
          rw [this] at hcl
          exact hnotmem hcl
    unfold invokeTool
    rw [hres]
  · intro name c hres
    exact List.mem_of_find?_eq_some hres

/-- Witness for C2: a base list holding only the destructive example
capability advertises nothing and resolves nothing. -/
theorem readOnly_hides_destructive_capabilities_witness :
    destructiveToolExample ∉ listTools ToolsetMode.readOnly [destructiveToolExample] ∧
    invokeTool stubEnv ToolsetMode.readOnly [destructiveToolExample]
      "dangerous_tool" [] = (InvokeOutcome.notFound, false) := by
  have h := readOnly_hides_destructive_capabilities [destructiveToolExample]
    destructiveToolExample (by decide) (List.mem_singleton.mpr rfl) rfl
  exact ⟨h.1, h.2.1 stubEnv []⟩

/-- C3: with a non-empty `availableTools` list, a capability is visible
only if its name is a member of the list; an absent or empty list imposes
no additional restriction (the full base list is handed to the policy);
and the allow-list only ever narrows — whatever names it holds, the
resulting list is an in-order sublist of the base list, so an unknown
name is silently ignored and adds nothing. -/
theorem availableTools_narrows_registry :
    (∀ (mode : ToolsetMode) (cfg : GitToolsMcpServerConfig)
        (ts : List String) (cap : ToolCapability),
      cfg.availableTools = some ts → ts ≠ [] →
      cap ∈ listTools mode (serverCapabilityTools cfg) →
      cap.definition.name ∈ ts) ∧
    (∀ cfg : GitToolsMcpServerConfig,
      cfg.availableTools = none ∨ cfg.availableTools = some [] →
      serverCapabilityTools cfg = gitTools) ∧
    (∀ cfg : GitToolsMcpServerConfig,
      (serverCapabilityTools cfg).Sublist gitTools) := by
  refine ⟨?_, ?_, ?_⟩
  · intro mode cfg ts cap hav hne hmem
    have hmem2 : cap ∈ serverCapabilityTools cfg :=
      List.Sublist.mem hmem (List.filter_sublist _)
    rw [serverCapabilityTools_eq_filter] at hmem2
    have hallow := List.of_mem_filter hmem2
    unfold allowPred at hallow
    rw [hav] at hallow
    have hlen : ts.length > 0 := by
      cases ts with
      | nil => exact absurd rfl hne
      | cons a t => simp
    simp [hlen] at hallow
    exact hallow
  · intro cfg hav
    unfold serverCapabilityTools
    rcases hav with h | h <;> simp [h]
  · intro cfg
    rw [serverCapabilityTools_eq_filter]
    exact List.filter_sublist _

/-- Witness for C3: an allow-list naming only `get_git_log` makes that
name the only visible one; the empty configuration imposes no
restriction; an allow-list naming only a nonexistent capability still
yields a sublist of the base list (in fact it invents nothing). -/
theorem availableTools_narrows_registry_witness :
    getLogCapability.definition.name ∈ ["get_git_log"] ∧
    serverCapabilityTools {} = gitTools ∧
    (serverCapabilityTools
      { availableTools := some ["nonexistent_tool"] }).Sublist gitTools := by
  refine ⟨?_, ?_, ?_⟩
  · refine availableTools_narrows_registry.1 ToolsetMode.all
      { availableTools := some ["get_git_log"] } ["get_git_log"]
      getLogCapability rfl (by decide) ?_
    exact List.mem_singleton.mpr rfl
  · exact availableTools_narrows_registry.2.1 {} (Or.inl rfl)
  · exact availableTools_narrows_registry.2.2 _

/-- C8: for every mode and allow-list configuration, the advertised
capability list is the base list in declaration order with the invisible
capabilities removed: it equals the base list filtered in place by one
composed predicate, and is therefore an order-preserving sublist of the
base list; being a function of the configuration alone, the evaluation is
deterministic. -/
theorem registry_order_is_base_order_filtered (mode : ToolsetMode)
    (cfg : GitToolsMcpServerConfig) :
    listTools mode (serverCapabilityTools cfg) =
      gitTools.filter (fun cap => isVisible mode cap && allowPred cfg cap) ∧
    (listTools mode (serverCapabilityTools cfg)).Sublist gitTools := by
  have h1 : listTools mode (serverCapabilityTools cfg) =
      gitTools.filter (fun cap => isVisible mode cap && allowPred cfg cap) := by
    unfold listTools
    rw [serverCapabilityTools_eq_filter, List.filter_filter]
  refine ⟨h1, ?_⟩
  rw [h1]
  exact List.filter_sublist _

/-- C6: when a name resolves to a capability but the argument record lacks
a field the capability's `inputSchema` marks required, dispatch fails with
`ValidationError` referencing a required-but-absent field of that schema,
and the handler is never called. -/
theorem missing_required_field_fails_validation (env : ExecEnv)
    (mode : ToolsetMode) (tools : List ToolCapability) (name : String)
    (args : Args) (cap : ToolCapability) (fs : FieldSpec)
    (hres : resolveTool mode tools name = some cap)
    (hfs : fs ∈ cap.definition.inputSchema)
    (hreq : fs.required = true)
    (habs : (args.lookup fs.name).isSome = false) :
    (invokeTool env mode tools name args).2 = false ∧
    ∃ g, (invokeTool env mode tools name args).1 =
        InvokeOutcome.validationError g ∧
      ∃ gs, gs ∈ cap.definition.inputSchema ∧ gs.name = g ∧
        gs.required = true ∧ (args.lookup gs.name).isSome = false := by
  have hex : ∃ x ∈ cap.definition.inputSchema,
      (x.required && !(args.lookup x.name).isSome) = true :=
    ⟨fs, hfs, by rw [hreq, habs]; rfl⟩
  have hsome : (cap.definition.inputSchema.find?
      (fun x => x.required && !(args.lookup x.name).isSome)).isSome :=
    List.find?_isSome.mpr hex
  obtain ⟨gs, hgs⟩ := Option.isSome_iff_exists.mp hsome
  have hmem := List.mem_of_find?_eq_some hgs
  have hpred := List.find?_some hgs
  have hval : validateArgs cap.definition.inputSchema args = some gs.name := by
    unfold validateArgs
    rw [hgs]
    rfl
  have hp : gs.required = true ∧ (args.lookup gs.name).isSome = false := by
    have h := hpred
    simp only [Bool.and_eq_true, Bool.not_eq_true'] at h
    exact h
  constructor
  · unfold invokeTool
    rw [hres]
    simp [hval]
  · refine ⟨gs.name, ?_, gs, hmem, rfl, hp.1, hp.2⟩
    unfold invokeTool
    rw [hres]
    simp [hval]

/-- Witness for C6: invoking `get_current_branch` with an empty argument
record (missing the required `path`) fails with `ValidationError` and the
handler is not called. -/
theorem missing_required_field_fails_validation_witness :
    (invokeTool stubEnv ToolsetMode.readOnly gitTools
      "get_current_branch" []).2 = false ∧
    ∃ g, (invokeTool stubEnv ToolsetMode.readOnly gitTools
        "get_current_branch" []).1 = InvokeOutcome.validationError g ∧
      ∃ gs, gs ∈ getCurrentBranchCapability.definition.inputSchema ∧
        gs.name = g ∧ gs.required = true ∧
        (([] : Args).lookup gs.name).isSome = false :=
  missing_required_field_fails_validation stubEnv ToolsetMode.readOnly
    gitTools "get_current_branch" [] getCurrentBranchCapability
    ⟨"path", FieldType.string, true⟩ (by rfl) (by decide) rfl rfl

end GitMcp
